import Mathlib

/-!
# Verification of the embedding-inspector extension

Shallow embedding of `scripts/embedding_inspector.py` (version 2.5).

Modelling conventions:
* Python floats are modelled as rationals (`ℚ`); torch tensors of shape
  `(rows, dim)` as `List (List ℚ)` (row-major).  `t.shape[1]` is modelled by
  `shape1`, the length of the first row.
* The host collaborators (tokenizer, vocabulary embedding matrix, the
  dictionary of loaded embeddings, the filesystem) are parameters: a
  `Tokenizer` structure of host-supplied functions, the matrix as a list of
  rows, the dictionary as a partial map `String → Option LoadedEmbedding`,
  and a pair of booleans (`file_exists`, `write_ok`) for the filesystem.
* Fallible code returns `Option`; a `none` at the top level of an operation
  models an uncaught Python exception escaping it.
* Python `int(text)` is modelled by `pyParseInt` for optional-sign decimal
  strings (exotic accepted forms such as inner underscores are out of scope
  of all claims and map to `none`); `str(n)` for a natural number is
  modelled by `decRepr`.
* `torch.sort(scores, descending=True)` is called with the default
  `stable=False`, so the order among equal scores is unspecified. The
  embedding keeps `do_inspect` a function by fixing one admissible outcome
  (`isortD`, a deterministic insertion sort); `DescSortOf` characterises
  the whole family of admissible outcomes (descending permutations of the
  score list), the sorting theorems quantify over that family, and
  `isortD` is proven to produce a member of it. Cosine similarity is
  computed over `ℝ`.
-/

/-- Python `str.strip()` as an executable function on the character list:
drop leading and trailing whitespace. -/
def String.pyStrip (s : String) : String :=
  String.mk (((s.toList.dropWhile Char.isWhitespace).reverse.dropWhile
    Char.isWhitespace).reverse)

namespace EmbInspector

/-- `MAX_NUM_MIX = 6`: number of embeddings that can be mixed. -/
def MAX_NUM_MIX : ℕ := 6

/-- `MAX_SIMILAR_EMBS = 30`: number of similar embeddings to show. -/
def MAX_SIMILAR_EMBS : ℕ := 30

/-- Host tokenizer: the functions the script obtains from the host
(`text_to_emb_ids` dispatches on the tokenizer class; `decoder`,
`byte_decoder` and the UTF-8 byte decode used by `emb_id_to_name` are
host-side tables/primitives). -/
structure Tokenizer where
  encode : String → List ℕ
  decoder : ℕ → Option (List Char)
  byteDecoder : Char → ℕ
  utf8decode : List ℕ → String

/-- A user-loaded embedding as stored in
`sd_hijack.model_hijack.embedding_db.word_embeddings` (its `checksum()`
method is modelled as a stored string). -/
structure LoadedEmbedding where
  name : String
  vec : List (List ℚ)
  checksum : String
  step : Option ℤ
  sd_checkpoint : Option String
  sd_checkpoint_name : Option String
deriving DecidableEq

/-- The three references returned by `get_data()`. -/
structure HostData where
  tokenizer : Tokenizer
  internal_embs : List (List ℚ)
  loaded_embs : String → Option LoadedEmbedding

/-- The embedding ID returned by `get_embedding_info`: an `int` for internal
embeddings, a string (`'['+checksum+']'`) for loaded ones. -/
inductive EmbId where
  | internal (id : ℕ)
  | loaded (id : String)
deriving DecidableEq

/-- The 4-tuple returned by `get_embedding_info`. -/
structure Resolved where
  name : String
  id : EmbId
  vec : List (List ℚ)
  loadedRef : Option LoadedEmbedding
deriving DecidableEq

/-- `t.shape[1]` of a row-major tensor model: length of the first row
(`0` for an empty tensor; real tensors are rectangular). -/
def shape1 (m : List (List ℚ)) : ℕ := (m.headD []).length

/-- The decimal digit character for `d` (`str` building block). -/
def decDigitChar (d : ℕ) : Char := Char.ofNat (d + 48)

/-- Characters of Python `str(n)` for a natural number `n`. -/
def decReprL (n : ℕ) : List Char :=
  if n = 0 then ['0'] else ((Nat.digits 10 n).reverse).map decDigitChar

/-- Python `str(n)` for a natural number `n`. -/
def decRepr (n : ℕ) : String := String.mk (decReprL n)

/-- Value of an all-digits character list, `none` if empty or containing a
non-digit (the failure branch of Python `int`). -/
def digitsVal (cs : List Char) : Option ℕ :=
  if cs ≠ [] ∧ cs.all (fun c => c.isDigit) then
    some (cs.foldl (fun a c => a * 10 + (c.toNat - 48)) 0)
  else none

/-- Python `int` on a character list: optional sign, then decimal digits. -/
def pyParseIntL (cs : List Char) : Option ℤ :=
  match cs with
  | [] => none
  | c :: rest =>
    if c = '-' then (digitsVal rest).map (fun n => -(n : ℤ))
    else if c = '+' then (digitsVal rest).map (fun n => (n : ℤ))
    else (digitsVal (c :: rest)).map (fun n => (n : ℤ))

/-- Python `int` on a string. -/
def pyParseInt (s : String) : Option ℤ := pyParseIntL s.toList

/-- `text_to_emb_ids`: returns the list of embedding IDs for a text via the
host tokenizer (the SD1.x/SD2.0 dispatch collapses to the host-supplied
`encode`). -/
def text_to_emb_ids (tok : Tokenizer) (text : String) : List ℕ :=
  tok.encode text

/-- `emb_id_to_name`: decoder lookup, then byte-level decode of the raw
token string; unknown IDs give the sentinel `'!Unknown ID!'`. -/
def emb_id_to_name (tok : Tokenizer) (emb_id : ℕ) : String :=
  match tok.decoder emb_id with
  | some cs => tok.utf8decode (cs.map tok.byteDecoder)
  | none => "!Unknown ID!"

/-- The `#nnnnn` branch of `get_embedding_info`: if the text starts with
`'#'` and the rest parses as an integer in `[0, vocab size)`, that integer;
otherwise `none` (out-of-range values fall back to tokenization, as in the
source). -/
def hashIdOf (d : HostData) (text : String) : Option ℕ :=
  match text.toList with
  | '#' :: rest =>
    match pyParseIntL rest with
    | some z => if 0 ≤ z ∧ z < (d.internal_embs.length : ℤ) then some z.toNat else none
    | _ => none
  | _ => none

/-- The internal-embedding result of `get_embedding_info`:
`emb_id_to_name`, the ID, and `internal_embs[emb_id].unsqueeze(0)`. -/
def internalResolved (d : HostData) (emb_id : ℕ) : Resolved :=
  ⟨emb_id_to_name d.tokenizer emb_id, EmbId.internal emb_id,
    [d.internal_embs.getD emb_id []], none⟩

/-- `get_embedding_info`: loaded-embeddings lookup first, then the `#nnnnn`
format, then first token of the tokenization; `none` models the
`return None, None, None, None` on empty tokenization. -/
def get_embedding_info (d : HostData) (text : String) : Option Resolved :=
  match d.loaded_embs text with
  | some le => some ⟨le.name, EmbId.loaded ("[" ++ le.checksum ++ "]"), le.vec, some le⟩
  | none =>
    match hashIdOf d text with
    | some v => some (internalResolved d v)
    | none =>
      match text_to_emb_ids d.tokenizer text with
      | [] => none
      | i :: _ => some (internalResolved d i)

/-- One line appended to the `results` log of `do_save` (log lines are
modelled structurally; the rendered message text is a display concern). -/
inductive LogLine where
  | filenameEmpty
  | fileExistsAbort
  | overwriteEnabled
  | stepInvalid
  | skipIncompatible (name : String) (id : EmbId)
  | addSum (name : String) (id : EmbId) (w : ℚ)
  | addConcat (name : String) (id : EmbId) (w : ℚ)
  | noMix
  | globalMulLine (m : ℚ)
  | settingStep (n : ℤ)
  | savedOk (filename : String)
  | saveError (filename : String)
  | reloading
deriving DecidableEq

/-- The loop state of the mixing loop in `do_save`:
`results`, `vec_size`, `tot_vec`. -/
structure MixState where
  results : List LogLine
  vec_size : Option ℕ
  tot_vec : Option (List (List ℚ))
deriving DecidableEq

/-- `t * c` for a tensor: every component multiplied by the scalar. -/
def scaleM (c : ℚ) (m : List (List ℚ)) : List (List ℚ) :=
  m.map (fun row => row.map (fun x => x * c))

/-- Elementwise tensor addition (`+=` on same-shape tensors). -/
def addM (a b : List (List ℚ)) : List (List ℚ) :=
  List.zipWith (List.zipWith (· + ·)) a b

/-- `torch.zeros(r, c)` (also `torch.zeros(c).unsqueeze(0)` for `r = 1`). -/
def zerosM (r c : ℕ) : List (List ℚ) :=
  List.replicate r (List.replicate c (0 : ℚ))

/-- The mixing arithmetic of one accepted entry in `do_save` (the body after
the vec-size check): sum mode pads the shorter of accumulator/entry with
zero rows then adds `mix_vec * mixval`; concat mode appends
`mix_vec * mixval`. `w` is the current `vec_size`. -/
def mixAdd (concat_mode : Bool) (st : MixState) (r : Resolved) (mixval : ℚ)
    (w : ℕ) : MixState :=
  let mix_vec := r.vec
  if concat_mode = false then
    let t0 := match st.tot_vec with
      | none => zerosM 1 w
      | some t => t
    let mv1 := if mix_vec.length < t0.length
      then mix_vec ++ zerosM (t0.length - mix_vec.length) w else mix_vec
    let t1 := if t0.length < mix_vec.length
      then t0 ++ zerosM (mix_vec.length - t0.length) w else t0
    { st with
      results := st.results ++ [LogLine.addSum r.name r.id mixval],
      tot_vec := some (addM t1 (scaleM mixval mv1)) }
  else
    let t1 := match st.tot_vec with
      | none => scaleM mixval mix_vec
      | some t => t ++ scaleM mixval mix_vec
    { st with
      results := st.results ++ [LogLine.addConcat r.name r.id mixval],
      tot_vec := some t1 }

/-- One iteration of the `for k in range(MAX_NUM_MIX)` loop of `do_save`:
skip blank/zero-weight entries, resolve, propagate an uncaught error
(`none`) when resolution fails (the source calls `.to(...)` on the `None`
vector), skip with a log line on a vec-size mismatch, else mix. -/
def mixStep (d : HostData) (concat_mode : Bool) (st : MixState)
    (arg : String × ℚ) : Option MixState :=
  let name := arg.1.pyStrip
  let mixval := arg.2
  if name = "" ∨ mixval = 0 then some st
  else
    match get_embedding_info d name with
    | none => none
    | some r =>
      match st.vec_size with
      | none =>
        some (mixAdd concat_mode { st with vec_size := some (shape1 r.vec) } r
          mixval (shape1 r.vec))
      | some s =>
        if s ≠ shape1 r.vec then
          some { st with results := st.results ++ [LogLine.skipIncompatible r.name r.id] }
        else
          some (mixAdd concat_mode st r mixval s)

/-- The whole mixing loop of `do_save` over the six (name, multiplier)
slots, starting from the log built before the loop. -/
def mixAll (d : HostData) (concat_mode : Bool) (names : List String)
    (mixvals : List ℚ) (init : List LogLine) : Option MixState :=
  ((List.range MAX_NUM_MIX).map (fun k => (names.getD k "", mixvals.getD k 0))).foldlM
    (mixStep d concat_mode) ⟨init, none, none⟩

/-- A record written by `Embedding.save`: the mixed tensor, the embedding
name and the optional training step. -/
structure SavedEmb where
  vec : List (List ℚ)
  name : String
  step : Option ℤ
deriving DecidableEq

/-- The observable outcome of `do_save`: the log, what was written (path
and record, `none` when nothing was written), and whether the host-side
reload of loaded embeddings was triggered. -/
structure DoSaveRes where
  log : List LogLine
  written : Option (String × SavedEmb)
  reloaded : Bool
deriving DecidableEq

/-- The `results` log built by `do_save` before the mixing loop. -/
def preLog (file_exists : Bool) (step_val : Option ℤ) (step_text : String) :
    List LogLine :=
  (if file_exists then [LogLine.overwriteEnabled] else []) ++
    (if step_val = none ∧ step_text ≠ "" then [LogLine.stepInvalid] else [])

/-- `do_save`: filename/overwrite checks, step parsing, the mixing loop,
global multiplier, write attempt (`write_ok` models whether
`Embedding.save` raises) and the unconditional reload after it. A `none`
result models an uncaught exception escaping `do_save`. -/
def do_save (d : HostData) (file_exists write_ok : Bool) (names : List String)
    (mixvals : List ℚ) (global_mul : ℚ) (concat_mode : Bool)
    (save_name0 : String) (enable_overwrite : Bool) (step_text0 : String) :
    Option DoSaveRes :=
  let save_name := save_name0.pyStrip
  let step_text := step_text0.pyStrip
  if save_name = "" then some ⟨[LogLine.filenameEmpty], none, false⟩
  else
    let save_filename := "embeddings/" ++ save_name ++ ".bin"
    if file_exists ∧ enable_overwrite = false then
      some ⟨[LogLine.fileExistsAbort], none, false⟩
    else
      let step_val := pyParseInt step_text
      match mixAll d concat_mode names mixvals (preLog file_exists step_val step_text) with
      | none => none
      | some st =>
        match st.tot_vec with
        | none => some ⟨st.results ++ [LogLine.noMix], none, false⟩
        | some tv =>
          let tot := scaleM global_mul tv
          let log2 := st.results
            ++ (if global_mul ≠ 1 then [LogLine.globalMulLine global_mul] else [])
            ++ (match step_val with
                | some sv => [LogLine.settingStep sv]
                | none => [])
          if write_ok then
            some ⟨log2 ++ [LogLine.savedOk save_filename, LogLine.reloading],
              some (save_filename, ⟨tot, save_name, step_val⟩), true⟩
          else
            some ⟨log2 ++ [LogLine.saveError save_filename, LogLine.reloading],
              none, true⟩


/-- One line of the report built by `do_inspect` (lines are modelled
structurally; rendering to text is a display concern). -/
inductive ILine where
  | embNameLine (s : String)
  | idInternal (n : ℕ)
  | idLoaded (s : String)
  | stepLine (s : Option ℤ)
  | ckptLine (s : Option String)
  | ckptNameLine (s : Option String)
  | vecCountLine (n : ℕ)
  | vecSizeLine (n : ℕ)
  | sepLine
  | vectorLine (idx : ℕ) (v : List ℚ)
  | sizeMismatch
  | blank
  | similarHeader
  | similarList (pairs : List (String × ℕ))
deriving DecidableEq

/-- The three possible returns of `do_inspect`: the two early error
messages, or the report. -/
inductive InspectResult where
  | needInput
  | error
  | report (lines : List ILine)

/-- Insertion of `x` into a list: `x` goes before the first element `y`
with `le x y`. -/
def insertD {α : Type} (le : α → α → Bool) (x : α) : List α → List α
  | [] => [x]
  | y :: ys => if le x y then x :: y :: ys else y :: insertD le x ys

/-- A deterministic insertion sort, the fixed representative outcome the
embedding uses for `torch.sort(descending=True)`. The source calls
`torch.sort` with its default `stable=False`, whose order among equal
scores is unspecified; accordingly, no claim about the program rests on
this particular tie order — sorting claims are stated over every
`DescSortOf` outcome, and `isortD` is proven to yield one of them. -/
def isortD {α : Type} (le : α → α → Bool) : List α → List α
  | [] => []
  | x :: xs => insertD le x (isortD le xs)

/-- The admissible outcomes of `torch.sort(scores, descending=True)` with
the default `stable=False`: any permutation of the scored pairs that is
descending in score. The source specifies nothing further about the order
of equal scores, so each such list is a possible result. -/
def DescSortOf (scored sorted : List (ℕ × ℝ)) : Prop :=
  sorted.Perm scored ∧ sorted.Pairwise (fun a b => b.2 ≤ a.2)

/-- The descending comparison on (id, score) pairs used for
`torch.sort(scores, descending=True)`. -/
noncomputable def scoreLe (a b : ℕ × ℝ) : Bool := decide (b.2 ≤ a.2)

/-- The `eps` of `torch.nn.CosineSimilarity(dim=1, eps=1e-6)`. -/
noncomputable def epsCos : ℝ := 1 / 1000000

/-- Dot product of two rows (zipWith-truncating; real tensors have equal
length). -/
def dotQ (u v : List ℚ) : ℚ := (List.zipWith (· * ·) u v).sum

/-- `torch.nn.CosineSimilarity(dim=1, eps=1e-6)` on one pair of rows:
`u·v / max(‖u‖‖v‖, eps)`, over `ℝ`. -/
noncomputable def cosSim (u v : List ℚ) : ℝ :=
  (dotQ u v : ℝ) / max (Real.sqrt (dotQ u u) * Real.sqrt (dotQ v v)) epsCos

/-- `cos(all_embs, vec_v)` paired with the vocabulary IDs `0..n-1` (the
implicit index order of the score tensor). -/
noncomputable def scoredList (embs : List (List ℚ)) (v : List ℚ) : List (ℕ × ℝ) :=
  (List.range embs.length).map (fun j => (j, cosSim (embs.getD j []) v))

/-- `sorted_ids[0:MAX_SIMILAR_EMBS]`: IDs of the stably descending-sorted
scores, truncated to the top 30. -/
noncomputable def bestIds (embs : List (List ℚ)) (v : List ℚ) : List ℕ :=
  ((isortD scoreLe (scoredList embs v)).take MAX_SIMILAR_EMBS).map Prod.fst

/-- The `name(id)` pairs of the similar-embeddings line of `do_inspect`. -/
noncomputable def similarPairs (tok : Tokenizer) (embs : List (List ℚ))
    (v : List ℚ) : List (String × ℕ) :=
  (bestIds embs v).map (fun i => (emb_id_to_name tok i, i))

/-- The strict "sorted before" relation a stable descending sort on an
id-ascending score list realises: strictly larger score first, ties by
ascending id. -/
def scoreRel (a b : ℕ × ℝ) : Prop := b.2 < a.2 ∨ (a.2 = b.2 ∧ a.1 < b.1)

/-- The per-row block of the `do_inspect` loop: the vector line, then
either the size-mismatch report (and `continue`) or the similar-embeddings
block. -/
noncomputable def inspectRow (tok : Tokenizer) (embs : List (List ℚ))
    (width idx : ℕ) (v : List ℚ) : List ILine :=
  [ILine.vectorLine idx v] ++
    (if v.length ≠ width then [ILine.sizeMismatch]
     else [ILine.blank, ILine.similarHeader,
       ILine.similarList (similarPairs tok embs v), ILine.sepLine])

/-- The header block of the `do_inspect` report (name, ID, loaded info,
vector count/size, separator). -/
def inspectHeader (r : Resolved) : List ILine :=
  [ILine.embNameLine r.name] ++
    (match r.id with
     | EmbId.internal n => [ILine.idInternal n]
     | EmbId.loaded s => [ILine.idLoaded s]) ++
    (match r.loadedRef with
     | some le => [ILine.stepLine le.step, ILine.ckptLine le.sd_checkpoint,
         ILine.ckptNameLine le.sd_checkpoint_name]
     | none => []) ++
    [ILine.vecCountLine r.vec.length, ILine.vecSizeLine (shape1 r.vec),
      ILine.sepLine]

/-- `do_inspect`: strip, resolve, then emit the header and one block per
row of the resolved vector. -/
noncomputable def do_inspect (d : HostData) (text0 : String) : InspectResult :=
  let text := text0.pyStrip
  if text = "" then InspectResult.needInput
  else
    match get_embedding_info d text with
    | none => InspectResult.error
    | some r =>
      InspectResult.report (inspectHeader r ++
        (r.vec.enum.map (fun p =>
          inspectRow d.tokenizer d.internal_embs (shape1 d.internal_embs)
            p.1 p.2)).flatten)

/-- The outputs of `do_minitokenize`: the six mixer name slots, the concat
flag, and the token report (`#id` strings). -/
structure MiniResult where
  mix : List String
  concat : Bool
  tokens : List String
deriving DecidableEq

/-- `do_minitokenize`: tokenize the stripped input; when send-to-mix is on,
slot `i` receives `#id_i` for `i < len(found_ids)` and is cleared
otherwise, and concat mode is forced on; when off, slots and concat flag
pass through. -/
def do_minitokenize (tok : Tokenizer) (mix_inputs : List String)
    (concat_mode mini_sendtomix : Bool) (mini_input : String) : MiniResult :=
  let found_ids := text_to_emb_ids tok mini_input.pyStrip
  let results := found_ids.map (fun i => "#" ++ decRepr i)
  { mix :=
      if mini_sendtomix then
        (List.range MAX_NUM_MIX).map (fun i =>
          if i < found_ids.length then "#" ++ decRepr (found_ids.getD i 0)
          else "")
      else mix_inputs,
    concat := if mini_sendtomix then true else concat_mode,
    tokens := results }

/-- Concrete trivial tokenizer used by witnesses (a host whose tokenizer
returns no IDs and knows no names). -/
def tok0 : Tokenizer := ⟨fun _ => [], fun _ => none, fun _ => 0, fun _ => ""⟩

/-- Host for the C3 witness: a two-row vocabulary, no loaded embeddings. -/
def hostC3 : HostData :=
  { tokenizer := tok0, internal_embs := [[1], [2]], loaded_embs := fun _ => none }

/-- The loaded embedding of the C4 counterexample: two rows. -/
def leC4 : LoadedEmbedding := ⟨"myemb", [[1], [2]], "abcd", none, none, none⟩

/-- Host for C4: one loaded embedding named `myemb` with two rows. -/
def hostC4 : HostData :=
  { tokenizer := tok0, internal_embs := [[0]],
    loaded_embs := fun s => if s = "myemb" then some leC4 else none }

/-- Host for the C1 counterexample: no loaded embeddings and a tokenizer
producing no IDs, so any name other than a valid `#nnnnn` fails to
resolve. -/
def hostC1 : HostData :=
  { tokenizer := tok0, internal_embs := [[1]], loaded_embs := fun _ => none }

/-- Loaded one-row width-1 embedding `a` (C5/C7 hosts). -/
def leA : LoadedEmbedding := ⟨"a", [[1]], "ca", none, none, none⟩

/-- Loaded one-row width-2 embedding `b` (C5 host). -/
def leB2 : LoadedEmbedding := ⟨"b", [[2, 3]], "cb", none, none, none⟩

/-- Loaded one-row width-1 embedding `b` (C7 counterexample host). -/
def leB1 : LoadedEmbedding := ⟨"b", [[2]], "cb", none, none, none⟩

/-- Host for the C5 counterexample: entries `a` (1 row of width 1) and `b`
(1 row of width 2). -/
def hostC5 : HostData :=
  { tokenizer := tok0, internal_embs := [[0]],
    loaded_embs := fun s =>
      if s = "a" then some leA else if s = "b" then some leB2 else none }

/-- Host for the C7 counterexample: entries `a = [[1]]` and `b = [[2]]` of
equal dimension and row count. -/
def hostC7x : HostData :=
  { tokenizer := tok0, internal_embs := [[0]],
    loaded_embs := fun s =>
      if s = "a" then some leA else if s = "b" then some leB1 else none }

/-- Tokenizer for the C9 witness: empty text tokenizes to no IDs, anything
else to one ID. -/
def tokWs : Tokenizer :=
  ⟨fun s => if s = "" then [] else [0], fun _ => none, fun _ => 0, fun _ => ""⟩

/-- Vocabulary for the C2 counterexample: rows 0 and 1 are identical
(both `[1, 0]`), the remaining 28 rows are `[0, 1]` — 30 rows of width 2. -/
def embsC2 : List (List ℚ) := [[1, 0], [1, 0]] ++ List.replicate 28 [0, 1]

/-- Two-row loaded embedding `dup` (C7 witness host). -/
def leC7 : LoadedEmbedding := ⟨"dup", [[2, 3], [4, 5]], "cd", none, none, none⟩

/-- Host for the C7 witness: a two-row loaded embedding mixed with itself. -/
def hostC7 : HostData :=
  { tokenizer := tok0, internal_embs := [[0]],
    loaded_embs := fun s => if s = "dup" then some leC7 else none }

theorem decDigitChar_isDigit {d : ℕ} (hd : d < 10) : (decDigitChar d).isDigit = true := by
  interval_cases d <;> decide

theorem toNat_decDigitChar {d : ℕ} (hd : d < 10) : (decDigitChar d).toNat = d + 48 := by
  interval_cases d <;> decide

theorem decDigitChar_ne_minus {d : ℕ} (hd : d < 10) : decDigitChar d ≠ '-' := by
  interval_cases d <;> decide

theorem decDigitChar_ne_plus {d : ℕ} (hd : d < 10) : decDigitChar d ≠ '+' := by
  interval_cases d <;> decide

theorem foldl_map_decDigitChar (L : List ℕ) (hL : ∀ d ∈ L, d < 10) (acc : ℕ) :
    (L.map decDigitChar).foldl (fun a c => a * 10 + (c.toNat - 48)) acc
      = L.foldl (fun a d => a * 10 + d) acc := by
  induction L generalizing acc with
  | nil => rfl
  | cons d T ih =>
    simp only [List.map_cons, List.foldl_cons]
    rw [toNat_decDigitChar (hL d (by simp))]
    simp only [Nat.add_sub_cancel]
    exact ih (fun x hx => hL x (by simp [hx])) _

theorem foldl_reverse_ofDigits (L : List ℕ) :
    L.reverse.foldl (fun a d => a * 10 + d) 0 = Nat.ofDigits 10 L := by
  induction L with
  | nil => simp [Nat.ofDigits]
  | cons d T ih =>
    rw [List.reverse_cons, List.foldl_append, ih, Nat.ofDigits_cons]
    simp only [List.foldl_cons, List.foldl_nil]
    omega

theorem digitsVal_decReprL (n : ℕ) : digitsVal (decReprL n) = some n := by
  by_cases h0 : n = 0
  · subst h0; decide
  · have hdig : ∀ d ∈ (Nat.digits 10 n).reverse, d < 10 := by
      intro d hd
      exact Nat.digits_lt_base (by norm_num) (List.mem_reverse.mp hd)
    have hne : (Nat.digits 10 n).reverse ≠ [] := by
      simp [Nat.digits_ne_nil_iff_ne_zero, h0]
    unfold decReprL
    rw [if_neg h0]
    unfold digitsVal
    rw [if_pos]
    · rw [foldl_map_decDigitChar _ hdig, foldl_reverse_ofDigits, Nat.ofDigits_digits]
    · refine ⟨by simpa using hne, ?_⟩
      rw [List.all_eq_true]
      intro c hc
      obtain ⟨d, hd, rfl⟩ := List.mem_map.mp hc
      exact decDigitChar_isDigit (hdig d hd)

theorem pyParseIntL_decReprL (n : ℕ) : pyParseIntL (decReprL n) = some (n : ℤ) := by
  by_cases h0 : n = 0
  · subst h0; decide
  · have hdig : ∀ d ∈ (Nat.digits 10 n).reverse, d < 10 := by
      intro d hd
      exact Nat.digits_lt_base (by norm_num) (List.mem_reverse.mp hd)
    have hne : (Nat.digits 10 n).reverse ≠ [] := by
      simp [Nat.digits_ne_nil_iff_ne_zero, h0]
    obtain ⟨d₀, T, hT⟩ := List.exists_cons_of_ne_nil hne
    have hd₀ : d₀ < 10 := hdig d₀ (by rw [hT]; exact List.mem_cons_self _ _)
    have hrepr : decReprL n = decDigitChar d₀ :: T.map decDigitChar := by
      unfold decReprL
      rw [if_neg h0, hT, List.map_cons]
    rw [hrepr]
    simp only [pyParseIntL]
    rw [if_neg (decDigitChar_ne_minus hd₀), if_neg (decDigitChar_ne_plus hd₀)]
    rw [← hrepr, digitsVal_decReprL]
    rfl

/-- **C3**: for every valid ID `i` whose `#i` string is not a loaded name,
resolving `"#" ++ str i` returns the vocabulary row `i` (unsqueezed), the
internal ID `i`, and the byte-level decode of `i` as name; unknown IDs give
the sentinel `'!Unknown ID!'` instead of failing. -/
theorem C3_resolve_hash_id (d : HostData) (i : ℕ)
    (hi : i < d.internal_embs.length)
    (hnl : d.loaded_embs ("#" ++ decRepr i) = none) :
    get_embedding_info d ("#" ++ decRepr i) =
      some ⟨emb_id_to_name d.tokenizer i, EmbId.internal i,
        [d.internal_embs.getD i []], none⟩
    ∧ (d.tokenizer.decoder i = none → emb_id_to_name d.tokenizer i = "!Unknown ID!") := by
  constructor
  · have hh : hashIdOf d ("#" ++ decRepr i) = some i := by
      unfold hashIdOf
      have htl : ("#" ++ decRepr i).toList = '#' :: decReprL i := rfl
      rw [htl]
      simp only [pyParseIntL_decReprL]
      rw [if_pos ⟨Int.ofNat_nonneg i, by exact_mod_cast hi⟩]
      simp
    unfold get_embedding_info
    rw [hnl, hh]
    rfl
  · intro h
    unfold emb_id_to_name
    rw [h]

theorem C3_resolve_hash_id_witness :
    1 < hostC3.internal_embs.length ∧
    (get_embedding_info hostC3 ("#" ++ decRepr 1) =
        some ⟨emb_id_to_name hostC3.tokenizer 1, EmbId.internal 1,
          [hostC3.internal_embs.getD 1 []], none⟩
      ∧ (hostC3.tokenizer.decoder 1 = none →
          emb_id_to_name hostC3.tokenizer 1 = "!Unknown ID!")) :=
  ⟨by decide, C3_resolve_hash_id hostC3 1 (by decide) rfl⟩

/-- **C4 counterexample**: resolving a loaded name returns the entry's full
two-row vector, not its first-row vector as the claim states. -/
theorem C4_counterexample :
    get_embedding_info hostC4 "myemb" =
      some ⟨"myemb", EmbId.loaded "[abcd]", [[1], [2]], some leC4⟩
    ∧ [[(1 : ℚ)], [2]] ≠ [[(1 : ℚ)]] := by
  decide

/-- **C4 (amended)**: for every text exactly matching a loaded-embeddings
key, the resolver returns that entry's full vector (all of its rows), its
name, and the checksum-derived string ID marking loaded provenance. -/
theorem C4_loaded_resolution (d : HostData) (text : String) (le : LoadedEmbedding)
    (h : d.loaded_embs text = some le) :
    get_embedding_info d text =
      some ⟨le.name, EmbId.loaded ("[" ++ le.checksum ++ "]"), le.vec, some le⟩ := by
  unfold get_embedding_info
  rw [h]

theorem C4_loaded_resolution_witness :
    hostC4.loaded_embs "myemb" = some leC4 ∧
    get_embedding_info hostC4 "myemb" =
      some ⟨leC4.name, EmbId.loaded ("[" ++ leC4.checksum ++ "]"), leC4.vec, some leC4⟩ :=
  ⟨by decide, C4_loaded_resolution hostC4 "myemb" leC4 (by decide)⟩

theorem scaleM_one (m : List (List ℚ)) : scaleM 1 m = m := by
  simp [scaleM]

theorem length_scaleM (c : ℚ) (m : List (List ℚ)) :
    (scaleM c m).length = m.length :=
  List.length_map _ _

theorem zipWith_add_replicate_zero (row : List ℚ) :
    List.zipWith (· + ·) (List.replicate row.length (0 : ℚ)) row = row := by
  induction row with
  | nil => rfl
  | cons a t ih => simp [List.replicate_succ, ih]

theorem addM_zerosM (m : List (List ℚ)) (w : ℕ)
    (hm : ∀ row ∈ m, row.length = w) :
    addM (zerosM m.length w) m = m := by
  induction m with
  | nil => rfl
  | cons r t ih =>
    have hr : r.length = w := hm r (List.mem_cons_self _ _)
    have ht : addM (zerosM t.length w) t = t :=
      ih (fun row hrow => hm row (List.mem_cons_of_mem _ hrow))
    have hhead : List.zipWith (· + ·) (List.replicate w (0 : ℚ)) r = r := by
      rw [← hr]
      exact zipWith_add_replicate_zero r
    show (List.zipWith (· + ·) (List.replicate w 0) r) :: addM (zerosM t.length w) t
      = r :: t
    rw [hhead, ht]

theorem zipWith_add_neg_self (row : List ℚ) :
    List.zipWith (· + ·) row (row.map (fun x => x * (-1)))
      = List.replicate row.length (0 : ℚ) := by
  induction row with
  | nil => rfl
  | cons a t ih =>
    show (a + a * (-1)) :: List.zipWith (· + ·) t (t.map (fun x => x * (-1)))
      = 0 :: List.replicate t.length 0
    rw [ih]
    norm_num

theorem addM_neg_self (m : List (List ℚ)) (w : ℕ)
    (hm : ∀ row ∈ m, row.length = w) :
    addM m (scaleM (-1) m) = zerosM m.length w := by
  induction m with
  | nil => rfl
  | cons r t ih =>
    have hr : r.length = w := hm r (List.mem_cons_self _ _)
    have ht : addM t (scaleM (-1) t) = zerosM t.length w :=
      ih (fun row hrow => hm row (List.mem_cons_of_mem _ hrow))
    show (List.zipWith (· + ·) r (r.map (fun x => x * (-1)))) :: addM t (scaleM (-1) t)
      = zerosM (t.length + 1) w
    rw [zipWith_add_neg_self, hr, ht]
    rfl

theorem zerosM_append (a b w : ℕ) :
    zerosM a w ++ zerosM b w = zerosM (a + b) w :=
  (List.replicate_add _ _ _).symm

theorem mixStep_blank (d : HostData) (cm : Bool) (st : MixState) (s : String) :
    mixStep d cm st (s, 0) = some st := by
  simp [mixStep]

/-- **C6**: saving when the target path exists and overwrite is disabled
returns only the FileExists message, writes nothing, and triggers no
reload. -/
theorem C6_file_exists_no_overwrite (d : HostData) (write_ok : Bool)
    (names : List String) (mixvals : List ℚ) (gm : ℚ) (cm : Bool)
    (save_name : String) (step_text : String)
    (hsn : save_name.pyStrip ≠ "") :
    do_save d true write_ok names mixvals gm cm save_name false step_text =
      some ⟨[LogLine.fileExistsAbort], none, false⟩ := by
  simp [do_save, hsn]

theorem C6_file_exists_no_overwrite_witness :
    "out".pyStrip ≠ "" ∧
    do_save hostC3 true true [] [] 1 false "out" false "" =
      some ⟨[LogLine.fileExistsAbort], none, false⟩ :=
  ⟨by decide, C6_file_exists_no_overwrite hostC3 true [] [] 1 false "out" "" (by decide)⟩

/-- **C10**: whenever the mixing loop produced a contribution, `do_save`
triggers the host-side reload unconditionally after the write attempt —
also when the write raised and the save was reported failed. -/
theorem C10_reload_after_write_attempt (d : HostData) (fe wok : Bool)
    (names : List String) (mixvals : List ℚ) (gm : ℚ) (cm : Bool)
    (sn : String) (ow : Bool) (stx : String) (st : MixState) (tv : List (List ℚ))
    (hsn : sn.pyStrip ≠ "")
    (hfe : ¬(fe ∧ ow = false))
    (hmix : mixAll d cm names mixvals
      (preLog fe (pyParseInt stx.pyStrip) stx.pyStrip) = some st)
    (htv : st.tot_vec = some tv) :
    ∃ res, do_save d fe wok names mixvals gm cm sn ow stx = some res ∧
      res.reloaded = true ∧
      (wok = false → res.written = none ∧
        LogLine.saveError ("embeddings/" ++ sn.pyStrip ++ ".bin") ∈ res.log) := by
  cases wok with
  | false =>
    simp only [do_save]
    rw [if_neg hsn, if_neg hfe, hmix]
    simp only [htv, Bool.false_eq_true, if_false]
    exact ⟨_, rfl, rfl, fun _ => ⟨rfl, by simp⟩⟩
  | true =>
    simp only [do_save]
    rw [if_neg hsn, if_neg hfe, hmix]
    simp only [htv, if_true]
    exact ⟨_, rfl, rfl, fun h => by cases h⟩

theorem mixAll_hostC7x_single :
    mixAll hostC7x false ["a", "", "", "", "", ""] [1, 0, 0, 0, 0, 0] [] =
      some ⟨[LogLine.addSum "a" (EmbId.loaded "[ca]") 1], some 1, some [[1]]⟩ := by
  have hs1 : mixStep hostC7x false ⟨[], none, none⟩ ("a", 1) =
      some ⟨[LogLine.addSum "a" (EmbId.loaded "[ca]") 1], some 1, some [[1]]⟩ := by
    simp only [mixStep]
    rw [if_neg (by decide)]
    simp only [show get_embedding_info hostC7x "a".pyStrip =
      some ⟨"a", EmbId.loaded "[ca]", [[1]], some leA⟩ from by decide]
    simp only [mixAdd]
    norm_num [scaleM, addM, zerosM, shape1]
  unfold mixAll
  rw [show (List.range MAX_NUM_MIX).map (fun k =>
      ((["a", "", "", "", "", ""] : List String).getD k "",
        ([1, 0, 0, 0, 0, 0] : List ℚ).getD k 0))
      = [("a", 1), ("", 0), ("", 0), ("", 0), ("", 0), ("", 0)] from rfl]
  simp only [List.foldlM_cons, List.foldlM_nil, hs1, Option.bind_eq_bind,
    Option.some_bind, mixStep_blank, Option.pure_def]

theorem C10_reload_after_write_attempt_witness :
    "out".pyStrip ≠ "" ∧ ¬(false ∧ false = false) ∧
    mixAll hostC7x false ["a", "", "", "", "", ""] [1, 0, 0, 0, 0, 0]
      (preLog false (pyParseInt "".pyStrip) "".pyStrip) =
      some ⟨[LogLine.addSum "a" (EmbId.loaded "[ca]") 1], some 1, some [[1]]⟩ ∧
    (∃ res, do_save hostC7x false false ["a", "", "", "", "", ""] [1, 0, 0, 0, 0, 0]
        1 false "out" false "" = some res ∧
      res.reloaded = true ∧
      (false = false → res.written = none ∧
        LogLine.saveError ("embeddings/" ++ "out".pyStrip ++ ".bin") ∈ res.log)) :=
  ⟨by decide, by decide,
    by
      rw [show preLog false (pyParseInt "".pyStrip) "".pyStrip
        = ([] : List LogLine) from by decide]
      exact mixAll_hostC7x_single,
    C10_reload_after_write_attempt hostC7x false false _ _ 1 false "out" false ""
      ⟨[LogLine.addSum "a" (EmbId.loaded "[ca]") 1], some 1, some [[1]]⟩ [[1]]
      (by decide) (by decide)
      (by
        rw [show preLog false (pyParseInt "".pyStrip) "".pyStrip
          = ([] : List LogLine) from by decide]
        exact mixAll_hostC7x_single)
      rfl⟩

/-- **C1 counterexample**: one failing entry (`bad` resolves to nothing)
makes the whole `do_save` abort with an uncaught error (`none`): no log
line for it, and the valid second entry `#0` contributes nothing. -/
theorem C1_counterexample :
    do_save hostC1 false true ["bad", "#0", "", "", "", ""] [1, 1, 1, 1, 1, 1] 1 true
      "out" false "" = none := by
  decide

/-- **C1 (amended)**: a resolution failure is not tolerated — the mixing
loop aborts with an uncaught error; what is logged and skipped (with the
remaining entries continuing) is an entry whose vector size is
incompatible. -/
theorem C1_failure_handling :
    (∀ (d : HostData) (cm : Bool) (st : MixState) (nm : String) (w : ℚ),
      nm.pyStrip ≠ "" → w ≠ 0 → get_embedding_info d nm.pyStrip = none →
      mixStep d cm st (nm, w) = none)
    ∧ (∀ (d : HostData) (cm : Bool) (st : MixState) (nm : String) (w : ℚ)
        (r : Resolved) (s : ℕ),
      nm.pyStrip ≠ "" → w ≠ 0 → get_embedding_info d nm.pyStrip = some r →
      st.vec_size = some s → s ≠ shape1 r.vec →
      mixStep d cm st (nm, w) =
        some { st with
          results := st.results ++ [LogLine.skipIncompatible r.name r.id] }) := by
  constructor
  · intro d cm st nm w hn hw hres
    simp only [mixStep]
    rw [if_neg (by push_neg; exact ⟨hn, hw⟩), hres]
  · intro d cm st nm w r s hn hw hres hvs hne
    simp only [mixStep]
    rw [if_neg (by push_neg; exact ⟨hn, hw⟩)]
    simp only [hres, hvs]
    rw [if_pos hne]

theorem C1_failure_handling_witness :
    ("bad".pyStrip ≠ "" ∧ (1 : ℚ) ≠ 0 ∧
      get_embedding_info hostC1 "bad".pyStrip = none ∧
      mixStep hostC1 true ⟨[], none, none⟩ ("bad", 1) = none) ∧
    ("b".pyStrip ≠ "" ∧ (1 : ℚ) ≠ 0 ∧
      get_embedding_info hostC5 "b".pyStrip = some
        ⟨"b", EmbId.loaded "[cb]", [[2, 3]], some leB2⟩ ∧
      some 1 = some 1 ∧ (1 : ℕ) ≠ shape1 [[2, 3]] ∧
      mixStep hostC5 true ⟨[], some 1, none⟩ ("b", 1) =
        some ⟨[LogLine.skipIncompatible "b" (EmbId.loaded "[cb]")], some 1, none⟩) :=
  ⟨⟨by decide, by decide, by decide,
      C1_failure_handling.1 hostC1 true ⟨[], none, none⟩ "bad" 1
        (by decide) (by decide) (by decide)⟩,
    ⟨by decide, by decide, by decide, rfl, by decide,
      C1_failure_handling.2 hostC5 true ⟨[], some 1, none⟩ "b" 1
        ⟨"b", EmbId.loaded "[cb]", [[2, 3]], some leB2⟩ 1
        (by decide) (by decide) (by decide) rfl (by decide)⟩⟩

/-- **C5 counterexample**: concat mix of two resolved nonzero-weight
entries with row counts 1 and 1 but different per-row dimensions yields 1
output row, not `r1 + r2 = 2`: the second entry is skipped for
dimension incompatibility. -/
theorem C5_counterexample :
    mixAll hostC5 true ["a", "b", "", "", "", ""] [1, 2, 0, 0, 0, 0] [] =
      some ⟨[LogLine.addConcat "a" (EmbId.loaded "[ca]") 1,
             LogLine.skipIncompatible "b" (EmbId.loaded "[cb]")],
        some 1, some [[1]]⟩
    ∧ [[(1 : ℚ)]].length ≠ leA.vec.length + leB2.vec.length := by
  constructor
  · have hs1 : mixStep hostC5 true ⟨[], none, none⟩ ("a", 1) =
        some ⟨[LogLine.addConcat "a" (EmbId.loaded "[ca]") 1], some 1, some [[1]]⟩ := by
      simp only [mixStep]
      rw [if_neg (by decide)]
      simp only [show get_embedding_info hostC5 "a".pyStrip =
        some ⟨"a", EmbId.loaded "[ca]", [[1]], some leA⟩ from by decide]
      simp only [mixAdd]
      norm_num [scaleM, addM, zerosM, shape1]
    have hs2 : mixStep hostC5 true
        ⟨[LogLine.addConcat "a" (EmbId.loaded "[ca]") 1], some 1, some [[1]]⟩
        ("b", 2) =
        some ⟨[LogLine.addConcat "a" (EmbId.loaded "[ca]") 1,
               LogLine.skipIncompatible "b" (EmbId.loaded "[cb]")],
          some 1, some [[1]]⟩ := by
      decide
    unfold mixAll
    rw [show (List.range MAX_NUM_MIX).map (fun k =>
        ((["a", "b", "", "", "", ""] : List String).getD k "",
          ([1, 2, 0, 0, 0, 0] : List ℚ).getD k 0))
        = [("a", 1), ("b", 2), ("", 0), ("", 0), ("", 0), ("", 0)] from rfl]
    simp only [List.foldlM_cons, List.foldlM_nil, hs1, Option.bind_eq_bind,
      Option.some_bind, hs2, mixStep_blank, Option.pure_def]
  · decide

/-- **C5 (amended)**: a concat-mode mix of two successfully resolved,
nonzero-weight entries whose per-row dimensions agree yields their
weighted rows appended in input order, `r1 + r2` rows in total; an entry
whose per-row dimension differs from the first contributing entry's is
logged and skipped. -/
theorem C5_concat_two_entries (d : HostData) (n1 n2 : String) (w1 w2 : ℚ)
    (r1 r2 : Resolved)
    (hn1 : n1.pyStrip ≠ "") (hn2 : n2.pyStrip ≠ "") (hw1 : w1 ≠ 0) (hw2 : w2 ≠ 0)
    (h1 : get_embedding_info d n1.pyStrip = some r1)
    (h2 : get_embedding_info d n2.pyStrip = some r2)
    (hdim : shape1 r1.vec = shape1 r2.vec) :
    ∃ st, mixAll d true [n1, n2, "", "", "", ""] [w1, w2, 0, 0, 0, 0] [] = some st
      ∧ st.tot_vec = some (scaleM w1 r1.vec ++ scaleM w2 r2.vec)
      ∧ (scaleM w1 r1.vec ++ scaleM w2 r2.vec).length
          = r1.vec.length + r2.vec.length := by
  have hps : (List.range MAX_NUM_MIX).map (fun k =>
      (([n1, n2, "", "", "", ""]).getD k "",
        ([w1, w2, 0, 0, 0, 0] : List ℚ).getD k 0))
      = [(n1, w1), (n2, w2), ("", 0), ("", 0), ("", 0), ("", 0)] := rfl
  have hs1 : mixStep d true ⟨[], none, none⟩ (n1, w1) =
      some ⟨[LogLine.addConcat r1.name r1.id w1], some (shape1 r1.vec),
        some (scaleM w1 r1.vec)⟩ := by
    simp only [mixStep]
    rw [if_neg (by push_neg; exact ⟨hn1, hw1⟩), h1]
    rfl
  have hs2 : mixStep d true
      ⟨[LogLine.addConcat r1.name r1.id w1], some (shape1 r1.vec),
        some (scaleM w1 r1.vec)⟩ (n2, w2) =
      some ⟨[LogLine.addConcat r1.name r1.id w1,
             LogLine.addConcat r2.name r2.id w2], some (shape1 r1.vec),
        some (scaleM w1 r1.vec ++ scaleM w2 r2.vec)⟩ := by
    simp only [mixStep]
    rw [if_neg (by push_neg; exact ⟨hn2, hw2⟩)]
    simp only [h2]
    rw [if_neg (not_ne_iff.mpr hdim)]
    simp [mixAdd]
  have hall : mixAll d true [n1, n2, "", "", "", ""] [w1, w2, 0, 0, 0, 0] [] =
      some ⟨[LogLine.addConcat r1.name r1.id w1,
             LogLine.addConcat r2.name r2.id w2], some (shape1 r1.vec),
        some (scaleM w1 r1.vec ++ scaleM w2 r2.vec)⟩ := by
    unfold mixAll
    rw [hps]
    simp only [List.foldlM_cons, List.foldlM_nil, hs1, Option.bind_eq_bind,
      Option.some_bind, hs2, mixStep_blank, Option.pure_def]
  exact ⟨_, hall, rfl, by simp [scaleM]⟩

theorem C5_concat_two_entries_witness :
    "a".pyStrip ≠ "" ∧ "dup".pyStrip ≠ "" ∧ (2 : ℚ) ≠ 0 ∧ (3 : ℚ) ≠ 0 ∧
    get_embedding_info hostC7 "dup".pyStrip = some
      ⟨"dup", EmbId.loaded "[cd]", [[2, 3], [4, 5]], some leC7⟩ ∧
    shape1 [[(2 : ℚ), 3], [4, 5]] = shape1 [[(2 : ℚ), 3], [4, 5]] ∧
    (∃ st, mixAll hostC7 true ["dup", "dup", "", "", "", ""] [2, 3, 0, 0, 0, 0] []
        = some st
      ∧ st.tot_vec = some (scaleM 2 [[(2 : ℚ), 3], [4, 5]]
          ++ scaleM 3 [[(2 : ℚ), 3], [4, 5]])
      ∧ (scaleM 2 [[(2 : ℚ), 3], [4, 5]] ++ scaleM 3 [[(2 : ℚ), 3], [4, 5]]).length
          = ([[(2 : ℚ), 3], [4, 5]] : List (List ℚ)).length
            + ([[(2 : ℚ), 3], [4, 5]] : List (List ℚ)).length) :=
  ⟨by decide, by decide, by decide, by decide, by decide, rfl,
    C5_concat_two_entries hostC7 "dup" "dup" 2 3
      ⟨"dup", EmbId.loaded "[cd]", [[2, 3], [4, 5]], some leC7⟩
      ⟨"dup", EmbId.loaded "[cd]", [[2, 3], [4, 5]], some leC7⟩
      (by decide) (by decide) (by decide) (by decide) (by decide) (by decide) rfl⟩

/-- **C7 counterexample**: two entries of the same dimension and row count
(`[[1]]` and `[[2]]`) mixed in sum mode with weights 1 and -1 give
`[[-1]]`, not the zero vector: the claim only holds when both entries
resolve to the same vector. -/
theorem C7_counterexample :
    mixAll hostC7x false ["a", "b", "", "", "", ""] [1, -1, 0, 0, 0, 0] [] =
      some ⟨[LogLine.addSum "a" (EmbId.loaded "[ca]") 1,
             LogLine.addSum "b" (EmbId.loaded "[cb]") (-1)],
        some 1, some [[-1]]⟩
    ∧ [[(-1 : ℚ)]] ≠ zerosM 1 1 := by
  constructor
  · have hs1 : mixStep hostC7x false ⟨[], none, none⟩ ("a", 1) =
        some ⟨[LogLine.addSum "a" (EmbId.loaded "[ca]") 1], some 1, some [[1]]⟩ := by
      simp only [mixStep]
      rw [if_neg (by decide)]
      simp only [show get_embedding_info hostC7x "a".pyStrip =
        some ⟨"a", EmbId.loaded "[ca]", [[1]], some leA⟩ from by decide]
      simp only [mixAdd]
      norm_num [scaleM, addM, zerosM, shape1]
    have hs2 : mixStep hostC7x false
        ⟨[LogLine.addSum "a" (EmbId.loaded "[ca]") 1], some 1, some [[1]]⟩
        ("b", -1) =
        some ⟨[LogLine.addSum "a" (EmbId.loaded "[ca]") 1,
               LogLine.addSum "b" (EmbId.loaded "[cb]") (-1)],
          some 1, some [[-1]]⟩ := by
      simp only [mixStep]
      rw [if_neg (by decide)]
      simp only [show get_embedding_info hostC7x "b".pyStrip =
        some ⟨"b", EmbId.loaded "[cb]", [[2]], some leB1⟩ from by decide]
      rw [if_neg (by decide)]
      simp only [mixAdd]
      norm_num [scaleM, addM, zerosM, shape1]
    unfold mixAll
    rw [show (List.range MAX_NUM_MIX).map (fun k =>
        ((["a", "b", "", "", "", ""] : List String).getD k "",
          ([1, -1, 0, 0, 0, 0] : List ℚ).getD k 0))
        = [("a", 1), ("b", -1), ("", 0), ("", 0), ("", 0), ("", 0)] from rfl]
    simp only [List.foldlM_cons, List.foldlM_nil, hs1, Option.bind_eq_bind,
      Option.some_bind, hs2, mixStep_blank, Option.pure_def]
  · decide

/-- **C7 (amended)**: two entries that resolve to the same (rectangular,
nonempty) vector, mixed in sum mode with weights 1 and -1, yield the zero
vector of that vector's shape. -/
theorem C7_sum_cancel (d : HostData) (n1 n2 : String) (r1 r2 : Resolved)
    (v : List (List ℚ))
    (hn1 : n1.pyStrip ≠ "") (hn2 : n2.pyStrip ≠ "")
    (h1 : get_embedding_info d n1.pyStrip = some r1)
    (h2 : get_embedding_info d n2.pyStrip = some r2)
    (hv1 : r1.vec = v) (hv2 : r2.vec = v)
    (hrect : ∀ row ∈ v, row.length = shape1 v) (hne : v ≠ []) :
    ∃ st, mixAll d false [n1, n2, "", "", "", ""] [1, -1, 0, 0, 0, 0] [] = some st
      ∧ st.tot_vec = some (zerosM v.length (shape1 v)) := by
  have hvpos : 1 ≤ v.length := by
    cases v with
    | nil => exact absurd rfl hne
    | cons a t => simp
  have hps : (List.range MAX_NUM_MIX).map (fun k =>
      (([n1, n2, "", "", "", ""]).getD k "",
        ([1, -1, 0, 0, 0, 0] : List ℚ).getD k 0))
      = [(n1, 1), (n2, -1), ("", 0), ("", 0), ("", 0), ("", 0)] := rfl
  have ht1 : (if (zerosM 1 (shape1 v)).length < v.length
      then zerosM 1 (shape1 v)
        ++ zerosM (v.length - (zerosM 1 (shape1 v)).length) (shape1 v)
      else zerosM 1 (shape1 v)) = zerosM v.length (shape1 v) := by
    simp only [zerosM, List.length_replicate]
    by_cases h : 1 < v.length
    · rw [if_pos h, ← List.replicate_add]
      congr 1
      omega
    · rw [if_neg h]
      have : v.length = 1 := by omega
      rw [this]
  have hs1 : mixStep d false ⟨[], none, none⟩ (n1, 1) =
      some ⟨[LogLine.addSum r1.name r1.id 1], some (shape1 v), some v⟩ := by
    simp only [mixStep]
    rw [if_neg (by push_neg; exact ⟨hn1, by norm_num⟩), h1]
    simp only [mixAdd, hv1]
    have hmv : ¬(v.length < (zerosM 1 (shape1 v)).length) := by
      simp only [zerosM, List.length_replicate]
      omega
    rw [if_neg hmv]  -- no padding of mix_vec
    rw [ht1, scaleM_one, addM_zerosM v (shape1 v) hrect]
    simp
  have hs2 : mixStep d false
      ⟨[LogLine.addSum r1.name r1.id 1], some (shape1 v), some v⟩ (n2, -1) =
      some ⟨[LogLine.addSum r1.name r1.id 1, LogLine.addSum r2.name r2.id (-1)],
        some (shape1 v), some (zerosM v.length (shape1 v))⟩ := by
    simp only [mixStep]
    rw [if_neg (by push_neg; exact ⟨hn2, by norm_num⟩)]
    simp only [h2]
    rw [if_neg (not_ne_iff.mpr (by rw [hv2]))]
    simp only [mixAdd, hv2, lt_self_iff_false, if_false, if_true]
    rw [addM_neg_self v (shape1 v) hrect]
    simp
  have hall : mixAll d false [n1, n2, "", "", "", ""] [1, -1, 0, 0, 0, 0] [] =
      some ⟨[LogLine.addSum r1.name r1.id 1, LogLine.addSum r2.name r2.id (-1)],
        some (shape1 v), some (zerosM v.length (shape1 v))⟩ := by
    unfold mixAll
    rw [hps]
    simp only [List.foldlM_cons, List.foldlM_nil, hs1, Option.bind_eq_bind,
      Option.some_bind, hs2, mixStep_blank, Option.pure_def]
  exact ⟨_, hall, rfl⟩

theorem C7_sum_cancel_witness :
    "dup".pyStrip ≠ "" ∧
    get_embedding_info hostC7 "dup".pyStrip = some
      ⟨"dup", EmbId.loaded "[cd]", [[2, 3], [4, 5]], some leC7⟩ ∧
    (∀ row ∈ ([[(2 : ℚ), 3], [4, 5]] : List (List ℚ)),
      row.length = shape1 [[(2 : ℚ), 3], [4, 5]]) ∧
    ([[(2 : ℚ), 3], [4, 5]] : List (List ℚ)) ≠ [] ∧
    (∃ st, mixAll hostC7 false ["dup", "dup", "", "", "", ""] [1, -1, 0, 0, 0, 0] []
        = some st
      ∧ st.tot_vec = some (zerosM ([[(2 : ℚ), 3], [4, 5]] : List (List ℚ)).length
          (shape1 [[(2 : ℚ), 3], [4, 5]]))) :=
  ⟨by decide, by decide, by decide, by decide,
    C7_sum_cancel hostC7 "dup" "dup"
      ⟨"dup", EmbId.loaded "[cd]", [[2, 3], [4, 5]], some leC7⟩
      ⟨"dup", EmbId.loaded "[cd]", [[2, 3], [4, 5]], some leC7⟩
      [[2, 3], [4, 5]]
      (by decide) (by decide) (by decide) (by decide) rfl rfl (by decide) (by decide)⟩

/-- **C9 counterexample**: on an empty input with send-to-mix enabled the
ID list is empty, but the mixer name slots are altered: all six are
cleared (and concat mode is forced on). -/
theorem C9_counterexample :
    do_minitokenize tok0 ["x", "", "", "", "", ""] false true "" =
      ⟨["", "", "", "", "", ""], true, []⟩
    ∧ (["x", "", "", "", "", ""] : List String) ≠ ["", "", "", "", "", ""] := by
  decide

/-- **C9 (amended)**: the mini-tokenizer on an input tokenizing to no IDs
returns an empty ID list; the six mixer name slots are unaltered only when
send-to-mix is off — when it is on, all six slots are cleared and concat
mode is forced on. -/
theorem C9_minitokenize_empty (tok : Tokenizer) (mix_inputs : List String)
    (cm stm : Bool) (inp : String)
    (henc : text_to_emb_ids tok inp.pyStrip = []) :
    (do_minitokenize tok mix_inputs cm stm inp).tokens = []
    ∧ (stm = false →
        do_minitokenize tok mix_inputs cm stm inp = ⟨mix_inputs, cm, []⟩)
    ∧ (stm = true →
        do_minitokenize tok mix_inputs cm stm inp =
          ⟨List.replicate MAX_NUM_MIX "", true, []⟩) := by
  refine ⟨?_, ?_, ?_⟩
  · simp [do_minitokenize, henc]
  · intro h
    subst h
    simp [do_minitokenize, henc]
  · intro h
    subst h
    simp only [do_minitokenize, henc]
    simp [MAX_NUM_MIX, List.range_succ]

theorem C9_minitokenize_empty_witness :
    text_to_emb_ids tokWs " ".pyStrip = [] ∧
    ((do_minitokenize tokWs ["x", "", "", "", "", ""] false true " ").tokens = []
      ∧ (true = false →
          do_minitokenize tokWs ["x", "", "", "", "", ""] false true " " =
            ⟨["x", "", "", "", "", ""], false, []⟩)
      ∧ (true = true →
          do_minitokenize tokWs ["x", "", "", "", "", ""] false true " " =
            ⟨List.replicate MAX_NUM_MIX "", true, []⟩)) :=
  ⟨by decide,
    C9_minitokenize_empty tokWs ["x", "", "", "", "", ""] false true " " (by decide)⟩

/-- **C8**: a row whose dimension differs from the vocabulary width gets
only the vector line and the mismatch report (similarity skipped), and
`do_inspect` still emits the per-row blocks of all rows. -/
theorem C8_dimension_mismatch_row (d : HostData) (text0 : String) (r : Resolved)
    (ht : text0.pyStrip ≠ "")
    (hr : get_embedding_info d text0.pyStrip = some r) :
    do_inspect d text0 = InspectResult.report (inspectHeader r ++
      (r.vec.enum.map (fun p =>
        inspectRow d.tokenizer d.internal_embs (shape1 d.internal_embs)
          p.1 p.2)).flatten)
    ∧ (∀ idx v, v.length ≠ shape1 d.internal_embs →
        inspectRow d.tokenizer d.internal_embs (shape1 d.internal_embs) idx v =
          [ILine.vectorLine idx v, ILine.sizeMismatch]) := by
  constructor
  · simp only [do_inspect]
    rw [if_neg ht]
    simp only [hr]
  · intro idx v hv
    simp [inspectRow, hv]

theorem C8_dimension_mismatch_row_witness :
    "myemb".pyStrip ≠ "" ∧
    get_embedding_info hostC4 "myemb".pyStrip =
      some ⟨"myemb", EmbId.loaded "[abcd]", [[1], [2]], some leC4⟩ ∧
    (do_inspect hostC4 "myemb" = InspectResult.report
      (inspectHeader ⟨"myemb", EmbId.loaded "[abcd]", [[1], [2]], some leC4⟩ ++
        ((⟨"myemb", EmbId.loaded "[abcd]", [[1], [2]], some leC4⟩ :
            Resolved).vec.enum.map (fun p =>
          inspectRow hostC4.tokenizer hostC4.internal_embs
            (shape1 hostC4.internal_embs) p.1 p.2)).flatten)
     ∧ (∀ idx v, v.length ≠ shape1 hostC4.internal_embs →
        inspectRow hostC4.tokenizer hostC4.internal_embs
          (shape1 hostC4.internal_embs) idx v =
          [ILine.vectorLine idx v, ILine.sizeMismatch])) :=
  ⟨by decide, by decide,
    C8_dimension_mismatch_row hostC4 "myemb"
      ⟨"myemb", EmbId.loaded "[abcd]", [[1], [2]], some leC4⟩
      (by decide) (by decide)⟩

theorem dotQ_nil (v : List ℚ) : dotQ [] v = 0 := rfl

theorem dotQ_cons (a b : ℚ) (t s : List ℚ) :
    dotQ (a :: t) (b :: s) = a * b + dotQ t s := by
  simp [dotQ]

theorem dotQ_self_nonneg (u : List ℚ) : 0 ≤ dotQ u u := by
  induction u with
  | nil => simp [dotQ]
  | cons a t ih =>
    rw [dotQ_cons]
    exact add_nonneg (mul_self_nonneg a) ih

theorem dotQ_eq_sum (u v : List ℚ) :
    dotQ u v = ∑ j ∈ Finset.range (min u.length v.length),
      u.getD j 0 * v.getD j 0 := by
  induction u generalizing v with
  | nil => simp [dotQ]
  | cons a t ih =>
    cases v with
    | nil => simp [dotQ]
    | cons b s =>
      rw [dotQ_cons, ih s]
      simp only [List.length_cons, Nat.succ_min_succ]
      rw [Finset.sum_range_succ']
      simp [add_comm]

theorem dotQ_sq_le (u v : List ℚ) : dotQ u v ^ 2 ≤ dotQ u u * dotQ v v := by
  have hcs := Finset.sum_mul_sq_le_sq_mul_sq
    (Finset.range (min u.length v.length))
    (fun j => u.getD j 0) (fun j => v.getD j 0)
  rw [dotQ_eq_sum u v]
  refine hcs.trans ?_
  have hu : ∑ j ∈ Finset.range (min u.length v.length), u.getD j 0 ^ 2
      ≤ dotQ u u := by
    rw [dotQ_eq_sum u u, min_self]
    have hsub : Finset.range (min u.length v.length) ⊆ Finset.range u.length :=
      Finset.range_subset.mpr (min_le_left _ _)
    calc ∑ j ∈ Finset.range (min u.length v.length), u.getD j 0 ^ 2
        ≤ ∑ j ∈ Finset.range u.length, u.getD j 0 ^ 2 :=
          Finset.sum_le_sum_of_subset_of_nonneg hsub
            (fun j _ _ => sq_nonneg _)
      _ = ∑ j ∈ Finset.range u.length, u.getD j 0 * u.getD j 0 := by
          simp [sq]
  have hv : ∑ j ∈ Finset.range (min u.length v.length), v.getD j 0 ^ 2
      ≤ dotQ v v := by
    rw [dotQ_eq_sum v v, min_self]
    have hsub : Finset.range (min u.length v.length) ⊆ Finset.range v.length :=
      Finset.range_subset.mpr (min_le_right _ _)
    calc ∑ j ∈ Finset.range (min u.length v.length), v.getD j 0 ^ 2
        ≤ ∑ j ∈ Finset.range v.length, v.getD j 0 ^ 2 :=
          Finset.sum_le_sum_of_subset_of_nonneg hsub
            (fun j _ _ => sq_nonneg _)
      _ = ∑ j ∈ Finset.range v.length, v.getD j 0 * v.getD j 0 := by
          simp [sq]
  exact mul_le_mul hu hv (Finset.sum_nonneg (fun j _ => sq_nonneg _))
    (le_trans (Finset.sum_nonneg (fun j _ => sq_nonneg _)) hu)

theorem cast_dotQ_le_sqrt (u v : List ℚ) :
    (dotQ u v : ℝ) ≤ Real.sqrt (dotQ u u) * Real.sqrt (dotQ v v) := by
  have hsq : ((dotQ u v : ℝ)) ^ 2 ≤ (dotQ u u : ℝ) * (dotQ v v : ℝ) := by
    exact_mod_cast dotQ_sq_le u v
  rw [← Real.sqrt_mul (by exact_mod_cast dotQ_self_nonneg u)]
  calc (dotQ u v : ℝ) ≤ |(dotQ u v : ℝ)| := le_abs_self _
    _ = Real.sqrt ((dotQ u v : ℝ) ^ 2) := (Real.sqrt_sq_eq_abs _).symm
    _ ≤ Real.sqrt ((dotQ u u : ℝ) * (dotQ v v : ℝ)) := Real.sqrt_le_sqrt hsq

theorem epsCos_pos : (0 : ℝ) < epsCos := by
  unfold epsCos
  norm_num

theorem eps_le_sqrtDen {u v : List ℚ} (hu : epsCos ≤ ((dotQ u u : ℚ) : ℝ))
    (hv : epsCos ≤ ((dotQ v v : ℚ) : ℝ)) :
    epsCos ≤ Real.sqrt (dotQ u u) * Real.sqrt (dotQ v v) := by
  have h1 : Real.sqrt epsCos ≤ Real.sqrt (dotQ u u) := Real.sqrt_le_sqrt hu
  have h2 : Real.sqrt epsCos ≤ Real.sqrt (dotQ v v) := Real.sqrt_le_sqrt hv
  have h4 : (0 : ℝ) ≤ Real.sqrt epsCos := Real.sqrt_nonneg _
  calc epsCos = Real.sqrt epsCos * Real.sqrt epsCos :=
        (Real.mul_self_sqrt (le_of_lt epsCos_pos)).symm
    _ ≤ Real.sqrt (dotQ u u) * Real.sqrt (dotQ v v) :=
        mul_le_mul h1 h2 h4 (le_trans h4 h1)

theorem sqrtDen_pos {u v : List ℚ} (hu : epsCos ≤ ((dotQ u u : ℚ) : ℝ))
    (hv : epsCos ≤ ((dotQ v v : ℚ) : ℝ)) :
    (0 : ℝ) < Real.sqrt (dotQ u u) * Real.sqrt (dotQ v v) :=
  lt_of_lt_of_le epsCos_pos (eps_le_sqrtDen hu hv)

theorem den_max_eq {u v : List ℚ} (hu : epsCos ≤ ((dotQ u u : ℚ) : ℝ))
    (hv : epsCos ≤ ((dotQ v v : ℚ) : ℝ)) :
    max (Real.sqrt (dotQ u u) * Real.sqrt (dotQ v v)) epsCos
      = Real.sqrt (dotQ u u) * Real.sqrt (dotQ v v) :=
  max_eq_left (eps_le_sqrtDen hu hv)

theorem cosSim_le_one {u v : List ℚ} (hu : epsCos ≤ ((dotQ u u : ℚ) : ℝ))
    (hv : epsCos ≤ ((dotQ v v : ℚ) : ℝ)) :
    cosSim u v ≤ 1 := by
  unfold cosSim
  rw [den_max_eq hu hv, div_le_one (sqrtDen_pos hu hv)]
  exact cast_dotQ_le_sqrt u v

theorem cosSim_self_eq_one {v : List ℚ} (hv : epsCos ≤ ((dotQ v v : ℚ) : ℝ)) :
    cosSim v v = 1 := by
  unfold cosSim
  rw [Real.mul_self_sqrt (by exact_mod_cast dotQ_self_nonneg v),
    max_eq_left hv]
  apply div_self
  have h1 : (0 : ℝ) < (dotQ v v : ℝ) := lt_of_lt_of_le epsCos_pos hv
  linarith

theorem cosSim_eq_one_imp {u v : List ℚ} (hu : epsCos ≤ ((dotQ u u : ℚ) : ℝ))
    (hv : epsCos ≤ ((dotQ v v : ℚ) : ℝ)) (h : cosSim u v = 1) :
    0 ≤ dotQ u v ∧ dotQ u v ^ 2 = dotQ u u * dotQ v v := by
  have hden : (0 : ℝ) < Real.sqrt (dotQ u u) * Real.sqrt (dotQ v v) :=
    sqrtDen_pos hu hv
  unfold cosSim at h
  rw [den_max_eq hu hv, div_eq_one_iff_eq (ne_of_gt hden)] at h
  constructor
  · have h0 : (0 : ℝ) ≤ (dotQ u v : ℝ) := h ▸ le_of_lt hden
    exact_mod_cast h0
  · have hsq : ((dotQ u v : ℝ)) ^ 2 = (dotQ u u : ℝ) * (dotQ v v : ℝ) := by
      rw [h, mul_pow,
        Real.sq_sqrt (by exact_mod_cast dotQ_self_nonneg u),
        Real.sq_sqrt (by exact_mod_cast dotQ_self_nonneg v)]
    exact_mod_cast hsq

theorem scoreLe_iff (a b : ℕ × ℝ) : scoreLe a b = true ↔ b.2 ≤ a.2 := by
  simp [scoreLe]

theorem length_insertD {α : Type} (le : α → α → Bool) (x : α) (l : List α) :
    (insertD le x l).length = l.length + 1 := by
  induction l with
  | nil => rfl
  | cons y ys ih =>
    simp only [insertD]
    split
    · simp
    · simp [ih]

theorem mem_insertD {α : Type} (le : α → α → Bool) (x a : α) (l : List α) :
    a ∈ insertD le x l ↔ a = x ∨ a ∈ l := by
  induction l with
  | nil => simp [insertD]
  | cons y ys ih =>
    simp only [insertD]
    split
    · simp [List.mem_cons]
    · simp only [List.mem_cons, ih]
      tauto

theorem length_isortD {α : Type} (le : α → α → Bool) (l : List α) :
    (isortD le l).length = l.length := by
  induction l with
  | nil => rfl
  | cons x xs ih => simp [isortD, length_insertD, ih]

theorem mem_isortD {α : Type} (le : α → α → Bool) (a : α) (l : List α) :
    a ∈ isortD le l ↔ a ∈ l := by
  induction l with
  | nil => simp [isortD]
  | cons x xs ih => simp [isortD, mem_insertD, ih, List.mem_cons]

theorem pairwise_insertD (x : ℕ × ℝ) (l : List (ℕ × ℝ))
    (hl : l.Pairwise scoreRel) (hx : ∀ y ∈ l, x.1 < y.1) :
    (insertD scoreLe x l).Pairwise scoreRel := by
  induction l with
  | nil => simp [insertD, List.pairwise_singleton]
  | cons y ys ih =>
    rcases List.pairwise_cons.mp hl with ⟨hy, hys⟩
    simp only [insertD]
    split
    case isTrue h =>
      refine List.pairwise_cons.mpr ⟨?_, hl⟩
      intro z hz
      have hxy : y.2 ≤ x.2 := (scoreLe_iff x y).mp h
      rcases List.mem_cons.mp hz with rfl | hz'
      · rcases lt_or_eq_of_le hxy with h' | h'
        · exact Or.inl h'
        · exact Or.inr ⟨h'.symm, hx z (List.mem_cons_self _ _)⟩
      · have hz2 : z.2 ≤ y.2 := by
          rcases hy z hz' with h' | ⟨h', _⟩
          · exact le_of_lt h'
          · exact le_of_eq h'.symm
        rcases lt_or_eq_of_le (le_trans hz2 hxy) with h' | h'
        · exact Or.inl h'
        · exact Or.inr ⟨h'.symm, hx z (List.mem_cons_of_mem _ hz')⟩
    case isFalse h =>
      have hyx : x.2 < y.2 := by
        have hnot : ¬(y.2 ≤ x.2) := fun hc =>
          absurd ((scoreLe_iff x y).mpr hc) (by simp [h])
        exact not_le.mp hnot
      refine List.pairwise_cons.mpr
        ⟨?_, ih hys (fun z hz => hx z (List.mem_cons_of_mem _ hz))⟩
      intro z hz
      rcases (mem_insertD _ _ _ _).mp hz with rfl | hz'
      · exact Or.inl hyx
      · exact hy z hz'

theorem pairwise_isortD (l : List (ℕ × ℝ))
    (hl : l.Pairwise (fun a b => a.1 < b.1)) :
    (isortD scoreLe l).Pairwise scoreRel := by
  induction l with
  | nil => simp [isortD]
  | cons x xs ih =>
    rcases List.pairwise_cons.mp hl with ⟨hx, hxs⟩
    simp only [isortD]
    refine pairwise_insertD _ _ (ih hxs) ?_
    intro y hy
    exact hx y ((mem_isortD _ _ _).mp hy)

theorem scoredList_pairwise_fst (embs : List (List ℚ)) (v : List ℚ) :
    (scoredList embs v).Pairwise (fun a b => a.1 < b.1) := by
  unfold scoredList
  exact (List.pairwise_lt_range _).map _ (fun a b h => h)

theorem mem_scoredList_elim (embs : List (List ℚ)) (v : List ℚ)
    (p : ℕ × ℝ) (hp : p ∈ scoredList embs v) :
    p.1 < embs.length ∧ p.2 = cosSim (embs.getD p.1 []) v := by
  unfold scoredList at hp
  rcases List.mem_map.mp hp with ⟨j, hj, rfl⟩
  exact ⟨List.mem_range.mp hj, rfl⟩

theorem mem_scoredList_intro (embs : List (List ℚ)) (v : List ℚ)
    (i : ℕ) (hi : i < embs.length) :
    (i, cosSim (embs.getD i []) v) ∈ scoredList embs v := by
  unfold scoredList
  exact List.mem_map.mpr ⟨i, List.mem_range.mpr hi, rfl⟩

theorem head?_take {α : Type} (l : List α) (k : ℕ) (hk : 0 < k) :
    (l.take k).head? = l.head? := by
  cases l with
  | nil => simp
  | cons a t =>
    cases k with
    | zero => exact absurd hk (lt_irrefl 0)
    | succ k => simp

theorem getD_mem_of_lt {α : Type} (l : List α) (n : ℕ) (d : α)
    (h : n < l.length) : l.getD n d ∈ l := by
  rw [List.getD_eq_get?, List.get?_eq_get h]
  exact List.get_mem l n h

theorem perm_insertD {α : Type} (le : α → α → Bool) (x : α) (l : List α) :
    (insertD le x l).Perm (x :: l) := by
  induction l with
  | nil => exact List.Perm.refl _
  | cons y ys ih =>
    simp only [insertD]
    split
    · exact List.Perm.refl _
    · exact (ih.cons y).trans (List.Perm.swap x y ys)

theorem perm_isortD {α : Type} (le : α → α → Bool) (l : List α) :
    (isortD le l).Perm l := by
  induction l with
  | nil => exact List.Perm.refl _
  | cons x xs ih =>
    simp only [isortD]
    exact (perm_insertD le x _).trans (ih.cons x)

/-- The fixed representative `isortD` is one admissible outcome of the
(unstable) `torch.sort`. -/
theorem isortD_descSortOf (embs : List (List ℚ)) (v : List ℚ) :
    DescSortOf (scoredList embs v) (isortD scoreLe (scoredList embs v)) := by
  refine ⟨perm_isortD _ _, ?_⟩
  refine (pairwise_isortD _ (scoredList_pairwise_fst embs v)).imp ?_
  intro a b h
  rcases h with h | ⟨h, _⟩
  · exact le_of_lt h
  · exact le_of_eq h.symm

/-- Head of the representative outcome: under the representative's
ascending-id tie order, the first sorted id is `i` whenever the inspected
vector is vocabulary row `i`, all rows clear the `eps` clamp, and no
earlier row is positively parallel to it. -/
theorem bestIds_head_stable (embs : List (List ℚ)) (v : List ℚ) (i : ℕ)
    (hv : embs.get? i = some v)
    (hnorm : ∀ u ∈ embs, epsCos ≤ ((dotQ u u : ℚ) : ℝ))
    (htie : ∀ j, j < i →
      ¬(0 ≤ dotQ (embs.getD j []) v ∧
        dotQ (embs.getD j []) v ^ 2
          = dotQ (embs.getD j []) (embs.getD j []) * dotQ v v)) :
    (bestIds embs v).head? = some i := by
  have hi : i < embs.length := by
    rcases List.get?_eq_some.mp hv with ⟨h, _⟩
    exact h
  have hgetD : embs.getD i [] = v := by
    rw [List.getD_eq_get?, hv]
    rfl
  have hvmem : v ∈ embs := List.get?_mem hv
  have hsv : epsCos ≤ ((dotQ v v : ℚ) : ℝ) := hnorm v hvmem
  have hcos_i : cosSim (embs.getD i []) v = 1 := by
    rw [hgetD]
    exact cosSim_self_eq_one hsv
  have hlenSorted : (isortD scoreLe (scoredList embs v)).length = embs.length := by
    rw [length_isortD]
    unfold scoredList
    simp
  have hPW : (isortD scoreLe (scoredList embs v)).Pairwise scoreRel :=
    pairwise_isortD _ (scoredList_pairwise_fst embs v)
  have hne : isortD scoreLe (scoredList embs v) ≠ [] := by
    intro hc
    rw [hc] at hlenSorted
    simp only [List.length_nil] at hlenSorted
    omega
  obtain ⟨h0, t0, hcons⟩ := List.exists_cons_of_ne_nil hne
  have hmem_h0 : h0 ∈ scoredList embs v := by
    have hmem : h0 ∈ isortD scoreLe (scoredList embs v) := by
      rw [hcons]
      exact List.mem_cons_self _ _
    exact (mem_isortD _ _ _).mp hmem
  obtain ⟨hh0lt, hh0eq⟩ := mem_scoredList_elim embs v h0 hmem_h0
  have hj_mem : embs.getD h0.1 [] ∈ embs := getD_mem_of_lt _ _ _ hh0lt
  have hhead : h0 = (i, cosSim (embs.getD i []) v) := by
    by_contra hneq
    have hei_sorted : (i, cosSim (embs.getD i []) v)
        ∈ isortD scoreLe (scoredList embs v) :=
      (mem_isortD _ _ _).mpr (mem_scoredList_intro embs v i hi)
    rw [hcons] at hei_sorted
    rcases List.mem_cons.mp hei_sorted with heq | hmem_t
    · exact hneq heq.symm
    · have hQ : scoreRel h0 (i, cosSim (embs.getD i []) v) :=
        (List.pairwise_cons.mp (hcons ▸ hPW)).1 _ hmem_t
      have hle1 : cosSim (embs.getD h0.1 []) v ≤ 1 :=
        cosSim_le_one (hnorm _ hj_mem) hsv
      rcases hQ with hlt | ⟨heq2, hlt1⟩
      · rw [hcos_i, hh0eq] at hlt
        have hlt' : (1 : ℝ) < cosSim (embs.getD h0.1 []) v := hlt
        linarith
      · rw [hh0eq, hcos_i] at heq2
        exact htie h0.1 hlt1
          (cosSim_eq_one_imp (hnorm _ hj_mem) hsv heq2)
  unfold bestIds
  rw [List.head?_map, head?_take _ _ (by decide), hcons, hhead]
  rfl

/-- **C2 counterexample**: vocabulary rows 0 and 1 of `embsC2` are
identical, and the inspected vector is vocabulary row 1 with matching
dimension; both rows score similarity 1, so the claim's own ascending-id
tie order — realised by the representative sort — puts id 0 on top, not
the row's own id 1. (With the source's unstable `torch.sort` the winner
among ids 0 and 1 is unspecified, so the claimed guarantee fails either
way.) -/
theorem C2_counterexample :
    embsC2.get? 1 = some [1, 0]
    ∧ [(1 : ℚ), 0].length = shape1 embsC2
    ∧ (bestIds embsC2 [1, 0]).head? = some 0
    ∧ (0 : ℕ) ≠ 1 := by
  refine ⟨by decide, by decide, ?_, by decide⟩
  refine bestIds_head_stable embsC2 [1, 0] 0 (by decide) ?_
    (fun j hj => absurd hj (Nat.not_lt_zero j))
  intro u hu
  rcases List.mem_append.mp hu with h | h
  · have hu1 : u = [1, 0] := by
      rcases List.mem_cons.mp h with rfl | h'
      · rfl
      · rcases List.mem_cons.mp h' with rfl | h''
        · rfl
        · exact absurd h'' (List.not_mem_nil u)
    rw [hu1]
    norm_num [dotQ, epsCos]
  · rw [List.eq_of_mem_replicate h]
    norm_num [dotQ, epsCos]

/-- **C2 (amended)**: for every inspected row of dimension equal to the
vocabulary width (vocabulary of at least 30 rows), the inspector's
similar-embeddings block holds exactly 30 (name, id) pairs, and — for
every admissible outcome of the unstable `torch.sort`, of which the
model's `isortD` is one — the selected ids are ordered by descending
cosine similarity; the order among equal-similarity ids is unspecified.
When the inspected vector is itself a vocabulary row and every row's
squared norm clears the `eps = 1e-6` clamp of `CosineSimilarity`, the top
similarity is exactly 1, and the top id is the row's own id provided no
other row is positively parallel to it. -/
theorem C2_top30_neighbors (tok : Tokenizer) (embs : List (List ℚ))
    (v : List ℚ) (idx : ℕ)
    (h30 : MAX_SIMILAR_EMBS ≤ embs.length)
    (hw : v.length = shape1 embs) :
    inspectRow tok embs (shape1 embs) idx v =
      [ILine.vectorLine idx v, ILine.blank, ILine.similarHeader,
        ILine.similarList (similarPairs tok embs v), ILine.sepLine]
    ∧ (similarPairs tok embs v).length = MAX_SIMILAR_EMBS
    ∧ DescSortOf (scoredList embs v) (isortD scoreLe (scoredList embs v))
    ∧ (∀ sorted, DescSortOf (scoredList embs v) sorted →
        ((sorted.take MAX_SIMILAR_EMBS).map Prod.fst).length = MAX_SIMILAR_EMBS
        ∧ ((sorted.take MAX_SIMILAR_EMBS).map Prod.fst).Pairwise (fun a b =>
            cosSim (embs.getD b []) v ≤ cosSim (embs.getD a []) v))
    ∧ (∀ i, embs.get? i = some v →
        (∀ u ∈ embs, epsCos ≤ ((dotQ u u : ℚ) : ℝ)) →
        cosSim (embs.getD i []) v = 1
        ∧ (∀ sorted, DescSortOf (scoredList embs v) sorted →
            (∃ j, sorted.head? = some (j, (1 : ℝ)))
            ∧ ((∀ j, j ≠ i →
                  ¬(0 ≤ dotQ (embs.getD j []) v ∧
                    dotQ (embs.getD j []) v ^ 2
                      = dotQ (embs.getD j []) (embs.getD j []) * dotQ v v)) →
                ((sorted.take MAX_SIMILAR_EMBS).map Prod.fst).head?
                  = some i))) := by
  have hdsM : DescSortOf (scoredList embs v) (isortD scoreLe (scoredList embs v)) :=
    isortD_descSortOf embs v
  have hall : ∀ sorted, DescSortOf (scoredList embs v) sorted →
      ((sorted.take MAX_SIMILAR_EMBS).map Prod.fst).length = MAX_SIMILAR_EMBS
      ∧ ((sorted.take MAX_SIMILAR_EMBS).map Prod.fst).Pairwise (fun a b =>
          cosSim (embs.getD b []) v ≤ cosSim (embs.getD a []) v) := by
    intro sorted hds
    have hlen : sorted.length = embs.length := by
      rw [hds.1.length_eq]
      unfold scoredList
      simp
    constructor
    · rw [List.length_map, List.length_take, hlen]
      exact min_eq_left h30
    · have hPW2 : sorted.Pairwise (fun a b : ℕ × ℝ =>
          cosSim (embs.getD b.1 []) v ≤ cosSim (embs.getD a.1 []) v) := by
        refine hds.2.imp_of_mem ?_
        intro a b ha hb hab
        have ha2 := (mem_scoredList_elim embs v a ((hds.1.mem_iff).mp ha)).2
        have hb2 := (mem_scoredList_elim embs v b ((hds.1.mem_iff).mp hb)).2
        rw [← ha2, ← hb2]
        exact hab
      rw [List.pairwise_map]
      exact hPW2.sublist (List.take_sublist _ _)
  have hself : ∀ i, embs.get? i = some v →
      (∀ u ∈ embs, epsCos ≤ ((dotQ u u : ℚ) : ℝ)) →
      cosSim (embs.getD i []) v = 1
      ∧ (∀ sorted, DescSortOf (scoredList embs v) sorted →
          (∃ j, sorted.head? = some (j, (1 : ℝ)))
          ∧ ((∀ j, j ≠ i →
                ¬(0 ≤ dotQ (embs.getD j []) v ∧
                  dotQ (embs.getD j []) v ^ 2
                    = dotQ (embs.getD j []) (embs.getD j []) * dotQ v v)) →
              ((sorted.take MAX_SIMILAR_EMBS).map Prod.fst).head?
                = some i)) := by
    intro i hv hnorm
    have hi : i < embs.length := by
      rcases List.get?_eq_some.mp hv with ⟨h, _⟩
      exact h
    have hgetD : embs.getD i [] = v := by
      rw [List.getD_eq_get?, hv]
      rfl
    have hvmem : v ∈ embs := List.get?_mem hv
    have hsv : epsCos ≤ ((dotQ v v : ℚ) : ℝ) := hnorm v hvmem
    have hcos_i : cosSim (embs.getD i []) v = 1 := by
      rw [hgetD]
      exact cosSim_self_eq_one hsv
    refine ⟨hcos_i, ?_⟩
    intro sorted hds
    have hlen : sorted.length = embs.length := by
      rw [hds.1.length_eq]
      unfold scoredList
      simp
    have hne : sorted ≠ [] := by
      intro hc
      rw [hc] at hlen
      simp only [List.length_nil] at hlen
      omega
    obtain ⟨h0, t0, hcons⟩ := List.exists_cons_of_ne_nil hne
    have hmem_h0 : h0 ∈ scoredList embs v := by
      refine (hds.1.mem_iff).mp ?_
      rw [hcons]
      exact List.mem_cons_self _ _
    obtain ⟨hh0lt, hh0eq⟩ := mem_scoredList_elim embs v h0 hmem_h0
    have hj_mem : embs.getD h0.1 [] ∈ embs := getD_mem_of_lt _ _ _ hh0lt
    have hle1 : cosSim (embs.getD h0.1 []) v ≤ 1 :=
      cosSim_le_one (hnorm _ hj_mem) hsv
    have hei : (i, cosSim (embs.getD i []) v) ∈ h0 :: t0 := by
      rw [← hcons]
      exact (hds.1.mem_iff).mpr (mem_scoredList_intro embs v i hi)
    have hdesc : (h0 :: t0).Pairwise (fun a b : ℕ × ℝ => b.2 ≤ a.2) := by
      rw [← hcons]
      exact hds.2
    have h02 : h0.2 = 1 := by
      rcases List.mem_cons.mp hei with heq | hmem_t
      · rw [← heq]
        exact hcos_i
      · have hd := (List.pairwise_cons.mp hdesc).1 _ hmem_t
        have h1le : (1 : ℝ) ≤ h0.2 := by
          rw [← hcos_i]
          exact hd
        have h2le : h0.2 ≤ 1 := by
          rw [hh0eq]
          exact hle1
        linarith
    have hh0eta : h0 = (h0.1, (1 : ℝ)) := by
      rw [← h02]
    constructor
    · refine ⟨h0.1, ?_⟩
      rw [hcons, List.head?_cons, ← hh0eta]
    · intro hpar
      have hcos0 : cosSim (embs.getD h0.1 []) v = 1 := by
        rw [← hh0eq, h02]
      have hparallel := cosSim_eq_one_imp (hnorm _ hj_mem) hsv hcos0
      by_cases hji : h0.1 = i
      · rw [List.head?_map, head?_take _ _ (by decide), hcons,
          List.head?_cons]
        simp [hji]
      · exact absurd hparallel (hpar h0.1 hji)
  refine ⟨by simp [inspectRow, hw], ?_, hdsM, hall, hself⟩
  unfold similarPairs bestIds
  rw [List.length_map]
  exact (hall _ hdsM).1

theorem C2_top30_neighbors_witness :
    MAX_SIMILAR_EMBS ≤ (List.replicate 30 [(1 : ℚ)]).length ∧
    [(1 : ℚ)].length = shape1 (List.replicate 30 [(1 : ℚ)]) ∧
    (inspectRow tok0 (List.replicate 30 [(1 : ℚ)])
        (shape1 (List.replicate 30 [(1 : ℚ)])) 0 [1] =
        [ILine.vectorLine 0 [1], ILine.blank, ILine.similarHeader,
          ILine.similarList (similarPairs tok0 (List.replicate 30 [(1 : ℚ)]) [1]),
          ILine.sepLine]
      ∧ (similarPairs tok0 (List.replicate 30 [(1 : ℚ)]) [1]).length
          = MAX_SIMILAR_EMBS
      ∧ DescSortOf (scoredList (List.replicate 30 [(1 : ℚ)]) [1])
          (isortD scoreLe (scoredList (List.replicate 30 [(1 : ℚ)]) [1]))
      ∧ (∀ sorted, DescSortOf (scoredList (List.replicate 30 [(1 : ℚ)]) [1]) sorted →
          ((sorted.take MAX_SIMILAR_EMBS).map Prod.fst).length = MAX_SIMILAR_EMBS
          ∧ ((sorted.take MAX_SIMILAR_EMBS).map Prod.fst).Pairwise (fun a b =>
              cosSim ((List.replicate 30 [(1 : ℚ)]).getD b []) [1]
                ≤ cosSim ((List.replicate 30 [(1 : ℚ)]).getD a []) [1]))
      ∧ (∀ i, (List.replicate 30 [(1 : ℚ)]).get? i = some [1] →
          (∀ u ∈ List.replicate 30 [(1 : ℚ)], epsCos ≤ ((dotQ u u : ℚ) : ℝ)) →
          cosSim ((List.replicate 30 [(1 : ℚ)]).getD i []) [1] = 1
          ∧ (∀ sorted,
              DescSortOf (scoredList (List.replicate 30 [(1 : ℚ)]) [1]) sorted →
              (∃ j, sorted.head? = some (j, (1 : ℝ)))
              ∧ ((∀ j, j ≠ i →
                    ¬(0 ≤ dotQ ((List.replicate 30 [(1 : ℚ)]).getD j []) [1] ∧
                      dotQ ((List.replicate 30 [(1 : ℚ)]).getD j []) [1] ^ 2
                        = dotQ ((List.replicate 30 [(1 : ℚ)]).getD j [])
                            ((List.replicate 30 [(1 : ℚ)]).getD j [])
                          * dotQ [(1 : ℚ)] [1])) →
                  ((sorted.take MAX_SIMILAR_EMBS).map Prod.fst).head?
                    = some i)))) :=
  ⟨by decide, by decide,
    C2_top30_neighbors tok0 (List.replicate 30 [(1 : ℚ)]) [1] 0
      (by decide) (by decide)⟩

end EmbInspector
